import Mathlib

/-!
Shallow embedding of `run_query.py`, a two-stage Wikidata ETL script:
stage-1 SPARQL discovery, stage-2 batched SPARQL detail queries, label
resolution through the `wbgetentities` API, a pandas transform, and a CSV
write.  Remote endpoints are modelled as explicit function parameters;
sleeps are modelled as events in an explicit trace.
-/

namespace RunQuery

/-- An observable effect of a loop iteration: an outgoing remote call or a
fixed-interval sleep (`time.sleep(1)` in the source). -/
inductive Event where
  | call : Event
  | sleep : Event
deriving DecidableEq, Repr

/-- A row of an in-memory table: a mapping from column name to nullable
string value, represented as an association list (key order is irrelevant;
cells are read through `getCell`). A `none` cell is pandas `NaN`. -/
abbrev Row : Type := List (String × Option String)

/-- In-memory table of named columns, the model of a `pandas.DataFrame`:
an ordered column-name list plus an ordered list of rows. -/
structure DataFrame where
  cols : List String
  rows : List Row
deriving DecidableEq

/-- `pd.DataFrame()`: the table with no columns and no rows. -/
def emptyDF : DataFrame := ⟨[], []⟩

/-- Reading one cell: the first entry for the column, `none` both for a
null cell and for a column the row does not carry (pandas fills missing
columns with `NaN` on concat). -/
def getCell : Row → String → Option String
  | [], _ => none
  | (k, v) :: r, c => if k = c then v else getCell r c

/-- Whether a row carries an entry for a column name. -/
def rowHasKey (r : Row) (c : String) : Bool :=
  r.any (fun p => p.1 == c)

/-- Row part of column assignment `df[c] = series`: remove any entry for
`c` and append the freshly computed cell. -/
def rowSet (c : String) (f : Row → Option String) (r : Row) : Row :=
  r.filter (fun p => !(p.1 == c)) ++ [(c, f r)]

/-- Row part of `df.drop(columns=[c])`. -/
def rowDrop (c : String) (r : Row) : Row :=
  r.filter (fun p => !(p.1 == c))

/-- Row part of `df.rename(columns=\x7bold: new\x7d)`. -/
def rowRename (old new : String) (r : Row) : Row :=
  r.map (fun p => if p.1 = old then (new, p.2) else p)

/-- Column assignment `df[c] = df.apply(...)`: overwrites the column when
present, otherwise appends it at the end, as pandas does. -/
def setCol (d : DataFrame) (c : String) (f : Row → Option String) : DataFrame :=
  { cols := if d.cols.contains c then d.cols else d.cols ++ [c],
    rows := d.rows.map (rowSet c f) }

/-- `df.drop(columns=[c])`. -/
def dropCol (d : DataFrame) (c : String) : DataFrame :=
  { cols := d.cols.filter (fun x => !(x == c)),
    rows := d.rows.map (rowDrop c) }

/-- `df.rename(columns=\x7bold: new\x7d)` (a no-op when `old` is absent). -/
def renameCol (d : DataFrame) (old new : String) : DataFrame :=
  { cols := d.cols.map (fun x => if x = old then new else x),
    rows := d.rows.map (rowRename old new) }

/-- `df[cs]`: select the columns `cs` in the given order. -/
def selectCols (d : DataFrame) (cs : List String) : DataFrame :=
  { cols := cs,
    rows := d.rows.map (fun r => cs.map (fun c => (c, getCell r c))) }

/-- `pd.concat([d1, d2], ignore_index=True)`: rows appended in order,
columns the in-order union. -/
def dfConcat (d1 d2 : DataFrame) : DataFrame :=
  { cols := d1.cols ++ d2.cols.filter (fun c => !(d1.cols.contains c)),
    rows := d1.rows ++ d2.rows }

/-- `df.empty` in pandas: true when the table has no rows or no columns. -/
def dfEmpty (d : DataFrame) : Bool :=
  d.rows.isEmpty || d.cols.isEmpty

/-- Fuel-driven worker for `chunksOf`; the fuel starts at the list length,
which suffices whenever the chunk size is positive. -/
def chunksOfAux (B : Nat) : Nat → List α → List (List α)
  | 0, _ => []
  | _, [] => []
  | fuel + 1, l => l.take B :: chunksOfAux B fuel (l.drop B)

/-- The python slicing loop `l[i:i+B] for i in range(0, len(l), B)`:
consecutive chunks of at most `B` elements. -/
def chunksOf (B : Nat) (l : List α) : List (List α) :=
  chunksOfAux B l.length l

/-- `' '.join(f"<\x7buri\x7d>" for uri in batch_uris)`. -/
def valuesList (uris : List String) : String :=
  String.intercalate " " (uris.map (fun u => "<" ++ u ++ ">"))

/-- The literal placeholder required in the stage-2 template. -/
def placeholder : String := "VALUES ?item \x7b \x7d"

/-- Placeholder substitution for one batch:
`template.replace('VALUES ?item \x7b \x7d', f'VALUES ?item \x7b\x7b \x7bvalues_list\x7d \x7d\x7d')`. -/
def substValues (template : String) (uris : List String) : String :=
  template.replace placeholder ("VALUES ?item \x7b " ++ valuesList uris ++ " \x7d")

/-- The body of one iteration of the stage-2 batch loop: execute the
substituted query, concatenate the batch table, record the call, and
record the sleep guarded by `batch_number < num_batches` (line 161),
where the batch number of the chunk at index `i` is `i + 1`. -/
def batchStep (ex : String → DataFrame) (template : String) (n : Nat)
    (acc : DataFrame × List Event) (ig : Nat × List String) : DataFrame × List Event :=
  (dfConcat acc.1 (ex (substValues template ig.2)),
   acc.2 ++ [Event.call] ++ (if ig.1 + 1 < n then [Event.sleep] else []))

/-- The stage-2 batch loop of `__main__` (lines 140-163): partition the
identifier list into chunks of `B`, run the query executor once per chunk
on the substituted template, concatenate the partial tables in order, and
sleep between consecutive batches (`if batch_number < num_batches`).
The executor for one substituted query is the parameter `ex`; the trace
records calls and sleeps in order. -/
def runBatched (ex : String → DataFrame) (template : String)
    (uris : List String) (B : Nat) : DataFrame × List Event :=
  (List.enum (chunksOf B uris)).foldl
    (batchStep ex template ((uris.length + B - 1) / B)) (emptyDF, [])

/-- `q.split('/')[-1]`: the suffix of `q` after its last slash (the whole
string when no slash occurs, the empty string after a trailing slash). -/
def lastSeg (q : String) : String :=
  String.mk ((q.data.reverse.takeWhile (fun c => !(c == '/'))).reverse)

/-- The URI prefix used to reconstruct full entity URIs from bare codes. -/
def entityUriPrefix : String := "http://www.wikidata.org/entity/"

/-- `q.startswith('http')`. -/
def startsWithHttp (q : String) : Bool :=
  "http".data.isPrefixOf q.data

/-- The filter-and-strip of `get_labels_from_api` line 15:
`[q.split('/')[-1] for q in qids if q and q.startswith('http')]`. -/
def qidCodes (qids : List String) : List String :=
  (qids.filter (fun q => !(q == "") && startsWithHttp q)).map lastSeg

/-- One entity of a `wbgetentities` response: the bare code together with
its labels keyed by language (the `value` field of each language entry). -/
abbrev Entity : Type := String × List (String × String)

/-- `entity.get('labels', \x7b\x7d).get(lang, \x7b\x7d).get('value', qid)`:
the label in the requested language, falling back to the bare code. -/
def entityLabel (lang : String) (e : Entity) : String :=
  ((e.2.lookup lang).getD e.1)

/-- The map entry written for one response entity (line 36):
`labels[f"http://www.wikidata.org/entity/\x7bqid\x7d"] = label`. -/
def entityEntry (lang : String) (e : Entity) : String × String :=
  (entityUriPrefix ++ e.1, entityLabel lang e)

/-- `get_labels_from_api` (lines 13-44).  The remote lookup endpoint is the
parameter `api`, mapping one chunk of bare codes to `none` when the call
or its JSON parse fails (the `except` path) and to the response's entity
list otherwise.  The label dictionary is an association list where a later
write overrides an earlier one (`dlookup` reads it); the trace records the
request of each chunk and the unconditional sleep after it.
This is the body of one chunk iteration. -/
def labelChunkStep (api : List String → Option (List Entity)) (lang : String)
    (acc : List (String × String) × List Event) (chunk : List String) :
    List (String × String) × List Event :=
  match api chunk with
  | some ents =>
      (acc.1 ++ ents.map (entityEntry lang), acc.2 ++ [Event.call, Event.sleep])
  | none => (acc.1, acc.2 ++ [Event.call, Event.sleep])

/-- `get_labels_from_api` itself: filter and strip the input, return the
empty dictionary without any call when nothing remains (lines 16-17), and
otherwise fold `labelChunkStep` over the 50-element chunks (line 20). -/
def getLabelsFromApi (api : List String → Option (List Entity))
    (qids : List String) (lang : String) :
    List (String × String) × List Event :=
  let codes := qidCodes qids
  if codes.isEmpty then ([], [])
  else (chunksOf 50 codes).foldl (labelChunkStep api lang) ([], [])

/-- Dictionary lookup for the label map: the value of the last entry
written for the key, as in a python dict built by repeated assignment. -/
def dlookup : List (String × String) → String → Option String
  | [], _ => none
  | (k, v) :: t, q =>
      match dlookup t q with
      | some w => some w
      | none => if k = q then some v else none

/-- `series.map(labels_map).fillna(series)` on one cell: a value found in
the map becomes its label, a value absent from the map stays itself, and a
null cell stays null. -/
def applyLabel (labels : List (String × String)) (v : Option String) : Option String :=
  v.map (fun s => (dlookup labels s).getD s)

/-- The character class of the density pattern `([0-9\.]+)`: an ASCII
digit or a period. -/
def isDens (c : Char) : Bool :=
  c.isDigit || c == '.'

/-- `re.search(r'([0-9\.]+)', s)`: the leftmost maximal run of characters
of the class, or `none` when no character of the class occurs. -/
def firstRun : List Char → Option (List Char)
  | [] => none
  | c :: cs => if isDens c then some (c :: cs.takeWhile isDens) else firstRun cs

/-- Density extraction on one string. -/
def extractDensity (s : String) : Option String :=
  (firstRun s.data).map (fun l => String.mk l)

/-- The density lambda of lines 111-113 applied to one cell; a missing
value prints as `"nan"` under `str(x)` and so extracts to `none`. -/
def densityApply (v : Option String) : Option String :=
  match v with
  | none => none
  | some s => extractDensity s

/-- One iteration of the loop of lines 104-108: when the identifier
column `old` is present, add the companion label column and drop the
original; otherwise leave the table unchanged. -/
def labelColStep (labels : List (String × String)) (d : DataFrame) (old : String) : DataFrame :=
  if d.cols.contains old then
    dropCol (setCol d (old ++ "Label") (fun r => applyLabel labels (getCell r old))) old
  else d

/-- Lines 101-108: rename `item` to `itemURI`, add `itemLabel`, and for
each of `color`, `crystalSystem`, `mainLocation` that is present add the
companion label column and drop the original. -/
def labelStep (df : DataFrame) (labels : List (String × String)) : DataFrame :=
  ["color", "crystalSystem", "mainLocation"].foldl (labelColStep labels)
    (setCol (renameCol df "item" "itemURI") "itemLabel"
      (fun r => applyLabel labels (getCell r "itemURI")))

/-- Lines 110-114: extract `densityValue` from `densityNode` when that
column is present, then drop the compound column. -/
def densityStep (df : DataFrame) : DataFrame :=
  if df.cols.contains "densityNode" then
    dropCol (setCol df "densityValue" (fun r => densityApply (getCell r "densityNode"))) "densityNode"
  else df

/-- The fixed final column list of line 116. -/
def finalCols : List String :=
  ["itemLabel", "chemicalFormula", "mohsHardness", "densityValue", "colorLabel",
   "crystalSystemLabel", "refractiveIndex", "mainLocationLabel", "image", "itemURI"]

/-- Lines 116-119: restrict the fixed final list to the columns present in
the working table and select them in that order. -/
def selectStep (df : DataFrame) : DataFrame :=
  selectCols df (finalCols.filter (fun c => df.cols.contains c))

/-- The whole in-memory transform of `process_and_save_data` given an
already-built label map. -/
def processTable (df : DataFrame) (labels : List (String × String)) : DataFrame :=
  selectStep (densityStep (labelStep df labels))

/-- The label-relevant columns of line 92. -/
def labelCols : List String := ["item", "color", "crystalSystem", "mainLocation"]

/-- `process_and_save_data` (lines 86-123) acting on the output file,
whose content is modelled as the table written to it (CSV serialization is
the external library's deterministic function of that table).  `qidOrder`
is the iteration order of the python set `all_qids`, which the runtime
does not fix; on an empty input table the function returns before any
write, leaving the previous file state untouched. -/
def processAndSaveData (api : List String → Option (List Entity)) (lang : String)
    (qidOrder : List String) (df : DataFrame)
    (file : Option DataFrame) : Option DataFrame :=
  if dfEmpty df then file
  else some (processTable df (getLabelsFromApi api qidOrder lang).1)

/-- Errors of the query executor: the explicit raise on a non-200 status
(line 65) and the re-raised JSON-shape failure (lines 67-84). -/
inductive QError where
  | transport : QError
  | format : QError
deriving DecidableEq

/-- The parsed-or-not body of an HTTP response from the SPARQL endpoint:
`none` when `response.json()` fails or the expected keys are missing,
otherwise `head.vars` together with `results.bindings`, each binding an
association from variable name to its bound `value`. -/
structure SparqlResponse where
  status : Nat
  body : Option (List String × List (List (String × String)))
deriving DecidableEq

/-- Lines 67-76: build a row per binding, taking for each declared
variable its bound value or a null placeholder
(`binding.get(var, \x7b\x7d).get('value', None)`); a table built from no
rows has no columns, as `pd.DataFrame([])`. -/
def parseBody (body : Option (List String × List (List (String × String)))) :
    Except QError DataFrame :=
  match body with
  | none => Except.error QError.format
  | some (vars, bindings) =>
      Except.ok
        { cols := if bindings.isEmpty then [] else vars,
          rows := bindings.map (fun b => vars.map (fun v => (v, b.lookup v))) }

/-- `execute_sparql_query` (lines 46-84) applied to the received response:
raise on any status other than 200, otherwise parse the body. -/
def executeSparqlQuery (r : SparqlResponse) : Except QError DataFrame :=
  if r.status ≠ 200 then Except.error QError.transport
  else parseBody r.body

/-- The lookup endpoint as a pointwise function of single entities: every
chunk call succeeds and answers each requested code from a fixed entity
table, the model of an unchanged remote dataset. -/
def pointwiseApi (entityOf : String → List (String × String)) :
    List String → Option (List Entity) :=
  fun chunk => some (chunk.map (fun q => (q, entityOf q)))

/-- The cell of row `i`, column `c` of a table: `none` when the row index
is out of range, otherwise the (nullable) cell value. -/
def cellAt (d : DataFrame) (i : Nat) (c : String) : Option (Option String) :=
  (d.rows[i]?).map (fun r => getCell r c)

/-- A concrete query executor used to instantiate the theorems below on
closed inputs. -/
def sampleExec : String → DataFrame :=
  fun _ => ⟨["item"], [[("item", some "v")]]⟩

/-- A concrete always-successful lookup endpoint whose entities carry a
`zh-hans` label. -/
def sampleApi : List String → Option (List Entity) :=
  fun chunk => some (chunk.map (fun q => (q, [("zh-hans", "L")])))

/-- A concrete lookup endpoint returning one entity with no label in any
language. -/
def sampleApiNoLabel : List String → Option (List Entity) :=
  fun _ => some [("Q7", [])]

/-! ### Chunking lemmas -/

theorem chunksOfAux_nil (B fuel : Nat) : chunksOfAux B fuel ([] : List α) = [] := by
  cases fuel <;> rfl

theorem chunksOf_nil (B : Nat) : chunksOf B ([] : List α) = [] := rfl

theorem chunksOfAux_flatten {B : Nat} (hB : 0 < B) :
    ∀ (fuel : Nat) (l : List α), l.length ≤ fuel →
      (chunksOfAux B fuel l).flatten = l := by
  intro fuel
  induction fuel with
  | zero =>
      intro l hl
      have h : l = [] := List.length_eq_zero.mp (Nat.le_zero.mp hl)
      subst h; rfl
  | succ f ih =>
      intro l hl
      cases l with
      | nil => rfl
      | cons a t =>
          have hlen : ((a :: t).drop B).length ≤ f := by
            rw [List.length_drop]
            simp only [List.length_cons] at hl ⊢
            omega
          calc (chunksOfAux B (f + 1) (a :: t)).flatten
              = (a :: t).take B ++ (chunksOfAux B f ((a :: t).drop B)).flatten := by
                simp [chunksOfAux]
            _ = (a :: t).take B ++ (a :: t).drop B := by rw [ih _ hlen]
            _ = a :: t := List.take_append_drop B (a :: t)

theorem chunksOf_flatten {B : Nat} (hB : 0 < B) (l : List α) :
    (chunksOf B l).flatten = l :=
  chunksOfAux_flatten hB l.length l (Nat.le_refl _)

theorem chunksOfAux_mem {B : Nat} (hB : 0 < B) :
    ∀ (fuel : Nat) (l : List α), l.length ≤ fuel →
      ∀ g ∈ chunksOfAux B fuel l, g ≠ [] ∧ g.length ≤ B := by
  intro fuel
  induction fuel with
  | zero =>
      intro l hl g hg
      have h : l = [] := List.length_eq_zero.mp (Nat.le_zero.mp hl)
      subst h; simp [chunksOfAux] at hg
  | succ f ih =>
      intro l hl g hg
      cases l with
      | nil => simp [chunksOfAux] at hg
      | cons a t =>
          simp only [chunksOfAux, List.mem_cons] at hg
          rcases hg with hg | hg
          · subst hg
            constructor
            · have : 0 < ((a :: t).take B).length := by
                rw [List.length_take]
                simp only [List.length_cons]
                omega
              exact List.ne_nil_of_length_pos this
            · rw [List.length_take]; omega
          · have hlen : ((a :: t).drop B).length ≤ f := by
              rw [List.length_drop]
              simp only [List.length_cons] at hl ⊢
              omega
            exact ih _ hlen g hg

theorem chunksOf_mem {B : Nat} (hB : 0 < B) (l : List α) :
    ∀ g ∈ chunksOf B l, g ≠ [] ∧ g.length ≤ B :=
  chunksOfAux_mem hB l.length l (Nat.le_refl _)

theorem chunksOfAux_ne_nil {B : Nat} :
    ∀ (fuel : Nat) (l : List α), l ≠ [] → 1 ≤ fuel → chunksOfAux B fuel l ≠ [] := by
  intro fuel l hl hf
  cases fuel with
  | zero => omega
  | succ f =>
      cases l with
      | nil => exact absurd rfl hl
      | cons a t => simp [chunksOfAux]

theorem chunksOfAux_dropLast {B : Nat} (hB : 0 < B) :
    ∀ (fuel : Nat) (l : List α), l.length ≤ fuel →
      ∀ g ∈ (chunksOfAux B fuel l).dropLast, g.length = B := by
  intro fuel
  induction fuel with
  | zero =>
      intro l hl g hg
      have h : l = [] := List.length_eq_zero.mp (Nat.le_zero.mp hl)
      subst h; simp [chunksOfAux] at hg
  | succ f ih =>
      intro l hl g hg
      cases l with
      | nil => simp [chunksOfAux] at hg
      | cons a t =>
          simp only [chunksOfAux] at hg
          by_cases hd : (a :: t).drop B = []
          · rw [hd, chunksOfAux_nil] at hg
            simp at hg
          · have hlen : ((a :: t).drop B).length ≤ f := by
              rw [List.length_drop]
              simp only [List.length_cons] at hl ⊢
              omega
            have hfpos : 1 ≤ f := by
              have := List.length_pos.mpr hd
              omega
            have hne : chunksOfAux B f ((a :: t).drop B) ≠ [] :=
              chunksOfAux_ne_nil f _ hd hfpos
            rw [List.dropLast_cons_of_ne_nil hne, List.mem_cons] at hg
            rcases hg with hg | hg
            · subst hg
              have hgt : B < (a :: t).length := by
                have := List.length_pos.mpr hd
                rw [List.length_drop] at this
                omega
              rw [List.length_take]
              omega
            · exact ih _ hlen g hg

theorem chunksOf_dropLast {B : Nat} (hB : 0 < B) (l : List α) :
    ∀ g ∈ (chunksOf B l).dropLast, g.length = B :=
  chunksOfAux_dropLast hB l.length l (Nat.le_refl _)

theorem chunksOfAux_length {B : Nat} (hB : 0 < B) :
    ∀ (fuel : Nat) (l : List α), l.length ≤ fuel →
      (chunksOfAux B fuel l).length = (l.length + B - 1) / B := by
  intro fuel
  induction fuel with
  | zero =>
      intro l hl
      have h : l = [] := List.length_eq_zero.mp (Nat.le_zero.mp hl)
      subst h
      simp only [chunksOfAux, List.length_nil]
      rw [Nat.div_eq_of_lt (show 0 + B - 1 < B by omega)]
  | succ f ih =>
      intro l hl
      cases l with
      | nil =>
          simp only [chunksOfAux, List.length_nil]
          rw [Nat.div_eq_of_lt (show 0 + B - 1 < B by omega)]
      | cons a t =>
          have hlen : ((a :: t).drop B).length ≤ f := by
            rw [List.length_drop]
            simp only [List.length_cons] at hl ⊢
            omega
          have key : ∀ m : Nat, (m + B) / B = m / B + 1 := fun m => Nat.add_div_right m hB
          have hrec : (chunksOfAux B (f + 1) (a :: t)).length
              = 1 + ((a :: t).length - B + B - 1) / B := by
            simp only [chunksOfAux, List.length_cons, ih _ hlen, List.length_drop]
            omega
          rw [hrec]
          set n := (a :: t).length with hn
          have hn1 : 1 ≤ n := by simp [hn]
          by_cases hle : n ≤ B
          · have e1 : n - B + B - 1 = B - 1 := by omega
            have e2 : n + B - 1 = (n - 1) + B := by omega
            rw [e1, e2]
            simp only [key]
            rw [Nat.div_eq_of_lt (show n - 1 < B by omega),
              Nat.div_eq_of_lt (show B - 1 < B by omega)]
          · have e1 : n - B + B - 1 = (n - B - 1) + B := by omega
            have e2 : n + B - 1 = ((n - B - 1) + B) + B := by omega
            rw [e1, e2]
            simp only [key]
            omega

theorem chunksOf_length {B : Nat} (hB : 0 < B) (l : List α) :
    (chunksOf B l).length = (l.length + B - 1) / B :=
  chunksOfAux_length hB l.length l (Nat.le_refl _)

/-! ### Loop unrollings -/

theorem batchStep_foldl (ex : String → DataFrame) (template : String) (n : Nat) :
    ∀ (l : List (Nat × List String)) (acc : DataFrame × List Event),
      (l.foldl (batchStep ex template n) acc).1.rows
          = acc.1.rows ++ l.flatMap (fun ig => (ex (substValues template ig.2)).rows)
        ∧ (l.foldl (batchStep ex template n) acc).2
          = acc.2 ++ l.flatMap (fun ig =>
              [Event.call] ++ (if ig.1 + 1 < n then [Event.sleep] else [])) := by
  intro l
  induction l with
  | nil => intro acc; simp
  | cons a t ih =>
      intro acc
      rcases ih (batchStep ex template n acc a) with ⟨h1, h2⟩
      constructor
      · rw [List.foldl_cons, h1]
        simp [batchStep, dfConcat, List.append_assoc]
      · rw [List.foldl_cons, h2]
        simp [batchStep, List.append_assoc]

theorem enumFrom_flatMap_snd (f : α → List β) :
    ∀ (k : Nat) (l : List α),
      (List.enumFrom k l).flatMap (fun ig => f ig.2) = l.flatMap f := by
  intro k l
  induction l generalizing k with
  | nil => rfl
  | cons a t ih => simp [List.enumFrom, ih]

theorem runBatched_rows (ex : String → DataFrame) (template : String)
    (uris : List String) (B : Nat) :
    (runBatched ex template uris B).1.rows
      = (chunksOf B uris).flatMap (fun g => (ex (substValues template g)).rows) := by
  unfold runBatched
  rw [(batchStep_foldl ex template _ _ _).1]
  simp only [emptyDF, List.nil_append, List.enum]
  exact enumFrom_flatMap_snd (fun g => (ex (substValues template g)).rows) 0 (chunksOf B uris)

theorem runBatched_trace (ex : String → DataFrame) (template : String)
    (uris : List String) (B : Nat) :
    (runBatched ex template uris B).2
      = (List.enum (chunksOf B uris)).flatMap (fun ig =>
          [Event.call] ++ (if ig.1 + 1 < (uris.length + B - 1) / B then [Event.sleep] else [])) := by
  unfold runBatched
  rw [(batchStep_foldl ex template _ _ _).2]
  simp

theorem labelChunkStep_foldl (api : List String → Option (List Entity)) (lang : String) :
    ∀ (l : List (List String)) (acc : List (String × String) × List Event),
      (l.foldl (labelChunkStep api lang) acc).1
          = acc.1 ++ l.flatMap (fun c =>
              match api c with
              | some ents => ents.map (entityEntry lang)
              | none => [])
        ∧ (l.foldl (labelChunkStep api lang) acc).2
          = acc.2 ++ l.flatMap (fun _ => [Event.call, Event.sleep]) := by
  intro l
  induction l with
  | nil => intro acc; simp
  | cons a t ih =>
      intro acc
      rcases ih (labelChunkStep api lang acc a) with ⟨h1, h2⟩
      cases h : api a with
      | some ents =>
          constructor
          · rw [List.foldl_cons, h1]
            simp [labelChunkStep, h, List.append_assoc]
          · rw [List.foldl_cons, h2]
            simp [labelChunkStep, h, List.append_assoc]
      | none =>
          constructor
          · rw [List.foldl_cons, h1]
            simp [labelChunkStep, h, List.append_assoc]
          · rw [List.foldl_cons, h2]
            simp [labelChunkStep, h, List.append_assoc]

theorem getLabels_fst (api : List String → Option (List Entity))
    (qids : List String) (lang : String) :
    (getLabelsFromApi api qids lang).1
      = (chunksOf 50 (qidCodes qids)).flatMap (fun c =>
          match api c with
          | some ents => ents.map (entityEntry lang)
          | none => []) := by
  by_cases h : (qidCodes qids).isEmpty
  · have h0 : qidCodes qids = [] := List.isEmpty_iff.mp h
    simp [getLabelsFromApi, h, h0, chunksOf_nil]
  · have hu : getLabelsFromApi api qids lang
        = (chunksOf 50 (qidCodes qids)).foldl (labelChunkStep api lang) ([], []) := by
      simp [getLabelsFromApi, h]
    rw [hu, (labelChunkStep_foldl api lang _ _).1]
    simp

theorem getLabels_trace (api : List String → Option (List Entity))
    (qids : List String) (lang : String) :
    (getLabelsFromApi api qids lang).2
      = (chunksOf 50 (qidCodes qids)).flatMap (fun _ => [Event.call, Event.sleep]) := by
  by_cases h : (qidCodes qids).isEmpty
  · have h0 : qidCodes qids = [] := List.isEmpty_iff.mp h
    simp [getLabelsFromApi, h, h0, chunksOf_nil]
  · have hu : getLabelsFromApi api qids lang
        = (chunksOf 50 (qidCodes qids)).foldl (labelChunkStep api lang) ([], []) := by
      simp [getLabelsFromApi, h]
    rw [hu, (labelChunkStep_foldl api lang _ _).2]
    simp

/-! ### Sleep counting -/

theorem count_sleep_guarded (p : α → Prop) [DecidablePred p] :
    ∀ l : List α,
      ((l.flatMap (fun x => [Event.call] ++ (if p x then [Event.sleep] else []))).count
        Event.sleep) = l.countP (fun x => decide (p x)) := by
  intro l
  induction l with
  | nil => rfl
  | cons a t ih =>
      rw [List.flatMap_cons, List.count_append, ih, List.countP_cons]
      by_cases h : p a
      · simp [h, List.count_append, List.count_cons]
        omega
      · simp [h, List.count_append, List.count_cons]

theorem count_sleep_pairs :
    ∀ l : List α, ((l.flatMap (fun _ => [Event.call, Event.sleep])).count Event.sleep)
      = l.length := by
  intro l
  induction l with
  | nil => rfl
  | cons a t ih => simp [List.count_append, List.count_cons, ih]

theorem countP_lt_enumFrom (n : Nat) :
    ∀ (l : List α) (k : Nat), k + l.length = n →
      (List.enumFrom k l).countP (fun ig => decide (ig.1 + 1 < n)) = n - 1 - k := by
  intro l
  induction l with
  | nil =>
      intro k hk
      simp only [List.length_nil, Nat.add_zero] at hk
      simp [List.enumFrom]
      omega
  | cons a t ih =>
      intro k hk
      simp only [List.length_cons] at hk
      simp only [List.enumFrom, List.countP_cons]
      rw [ih (k + 1) (by omega)]
      by_cases h : k + 1 < n
      · rw [if_pos (by simp [h])]
        omega
      · rw [if_neg (by simp [h])]
        omega

/-- C8: the batch coordinator sleeps exactly between consecutive batch
calls and not after the last one — with `n` batches the trace carries
`n - 1` sleeps, where `n` equals the computed `num_batches` — while the
label resolver sleeps once after every chunk call including the last, so
with `m` chunks the trace carries exactly `m` sleeps. -/
theorem c8_sleep_counts (ex : String → DataFrame) (template : String)
    (uris : List String) (B : Nat) (api : List String → Option (List Entity))
    (qids : List String) (lang : String) (hB : 0 < B) :
    ((runBatched ex template uris B).2.count Event.sleep) = (chunksOf B uris).length - 1
    ∧ (chunksOf B uris).length = (uris.length + B - 1) / B
    ∧ ((getLabelsFromApi api qids lang).2.count Event.sleep)
        = (chunksOf 50 (qidCodes qids)).length := by
  refine ⟨?_, chunksOf_length hB uris, ?_⟩
  · rw [runBatched_trace, count_sleep_guarded]
    have h1 : (0 : Nat) + (chunksOf B uris).length = (uris.length + B - 1) / B := by
      rw [chunksOf_length hB]
      omega
    have h2 := countP_lt_enumFrom ((uris.length + B - 1) / B) (chunksOf B uris) 0 h1
    simp only [List.enum]
    rw [h2, chunksOf_length hB]
    omega
  · rw [getLabels_trace, count_sleep_pairs]

/-- C1: the stage-2 batching loop partitions the identifier list into
consecutive groups of at most `B` (only the last may be smaller, all are
non-empty, and their concatenation is the original list); it issues one
executor call per group on the template with the group substituted as a
space-separated angle-bracketed list, and concatenates the per-group
tables preserving batch order and within-batch row order, so the total
row count is the sum of the per-batch row counts. -/
theorem c1_batch_partition_concat (ex : String → DataFrame) (template : String)
    (uris : List String) (B : Nat) (hB : 0 < B) (_hne : uris ≠ []) :
    (runBatched ex template uris B).1.rows
        = (chunksOf B uris).flatMap (fun g => (ex (substValues template g)).rows)
    ∧ (runBatched ex template uris B).1.rows.length
        = ((chunksOf B uris).map (fun g => (ex (substValues template g)).rows.length)).sum
    ∧ (chunksOf B uris).flatten = uris
    ∧ (∀ g ∈ chunksOf B uris, g ≠ [] ∧ g.length ≤ B)
    ∧ (∀ g ∈ (chunksOf B uris).dropLast, g.length = B) := by
  refine ⟨runBatched_rows ex template uris B, ?_, chunksOf_flatten hB uris,
    chunksOf_mem hB uris, chunksOf_dropLast hB uris⟩
  rw [runBatched_rows]
  rw [List.length_flatMap]
  rfl

theorem c1_batch_partition_concat_w :
    (0 < 2) ∧ (["u1", "u2", "u3"] ≠ ([] : List String)) ∧
    ((runBatched sampleExec "t" ["u1", "u2", "u3"] 2).1.rows
        = (chunksOf 2 ["u1", "u2", "u3"]).flatMap
            (fun g => (sampleExec (substValues "t" g)).rows)
    ∧ (runBatched sampleExec "t" ["u1", "u2", "u3"] 2).1.rows.length
        = ((chunksOf 2 ["u1", "u2", "u3"]).map
            (fun g => (sampleExec (substValues "t" g)).rows.length)).sum
    ∧ (chunksOf 2 ["u1", "u2", "u3"]).flatten = ["u1", "u2", "u3"]
    ∧ (∀ g ∈ chunksOf 2 ["u1", "u2", "u3"], g ≠ [] ∧ g.length ≤ 2)
    ∧ (∀ g ∈ (chunksOf 2 ["u1", "u2", "u3"]).dropLast, g.length = 2)) :=
  ⟨by decide, by decide,
    c1_batch_partition_concat sampleExec "t" ["u1", "u2", "u3"] 2 (by decide) (by decide)⟩

theorem c8_sleep_counts_w :
    (0 < 2) ∧
    (((runBatched sampleExec "t" ["u1", "u2", "u3"] 2).2.count Event.sleep)
        = (chunksOf 2 ["u1", "u2", "u3"]).length - 1
    ∧ (chunksOf 2 ["u1", "u2", "u3"]).length = (["u1", "u2", "u3"].length + 2 - 1) / 2
    ∧ ((getLabelsFromApi sampleApi ["http://e/Q1"] "zh-hans").2.count Event.sleep)
        = (chunksOf 50 (qidCodes ["http://e/Q1"])).length) :=
  ⟨by decide,
    c8_sleep_counts sampleExec "t" ["u1", "u2", "u3"] 2 sampleApi ["http://e/Q1"]
      "zh-hans" (by decide)⟩

/-! ### The query executor (C3) -/

/-- C3 counterexample: the claim says every 2xx status proceeds to parsing,
but the code raises on any status other than exactly 200 — at status 201
(a 2xx success status) with a well-formed body it raises the transport
error instead of parsing. -/
theorem c3_counterexample :
    executeSparqlQuery ⟨201, some (["item"], [])⟩ = Except.error QError.transport
    ∧ 200 ≤ 201 ∧ 201 < 300 :=
  ⟨rfl, by omega, by omega⟩

/-- C3 amended: the executor fails with the transport error exactly when
the status is not exactly 200 (so non-2xx statuses raise, but so do 2xx
statuses other than 200), and for status 200 it proceeds to parse the
body. -/
theorem c3_transport_iff_not_200 (r : SparqlResponse) :
    (executeSparqlQuery r = Except.error QError.transport ↔ r.status ≠ 200)
    ∧ (r.status = 200 → executeSparqlQuery r = parseBody r.body) := by
  constructor
  · constructor
    · intro h
      intro hs
      unfold executeSparqlQuery at h
      rw [if_neg (by simp [hs])] at h
      cases hb : r.body with
      | none => rw [hb] at h; simp [parseBody] at h
      | some p =>
          rw [hb] at h
          cases p with
          | mk vars bindings => simp [parseBody] at h
    · intro h
      unfold executeSparqlQuery
      rw [if_pos h]
  · intro h
    unfold executeSparqlQuery
    rw [if_neg (by simp [h])]

theorem c3_transport_iff_not_200_w :
    (executeSparqlQuery ⟨200, none⟩ = Except.error QError.transport ↔ (200 : Nat) ≠ 200)
    ∧ ((200 : Nat) = 200 → executeSparqlQuery ⟨200, none⟩ = parseBody none) :=
  c3_transport_iff_not_200 ⟨200, none⟩

/-! ### The label resolver (C4, C5) -/

theorem dlookup_eq_none_iff (l : List (String × String)) (k : String) :
    dlookup l k = none ↔ ∀ p ∈ l, p.1 ≠ k := by
  induction l with
  | nil => simp [dlookup]
  | cons a t ih =>
      cases a with
      | mk a1 a2 =>
          simp only [dlookup]
          cases h : dlookup t k with
          | some w =>
              simp only []
              constructor
              · intro hfalse; exact absurd hfalse (by simp)
              · intro hall
                have h2 : dlookup t k = none :=
                  ih.mpr (fun p hp => hall p (List.mem_cons_of_mem _ hp))
                rw [h] at h2
                exact absurd h2 (by simp)
          | none =>
              simp only []
              by_cases he : a1 = k
              · rw [if_pos he]
                constructor
                · intro hfalse; exact absurd hfalse (by simp)
                · intro hall
                  exact absurd he (hall (a1, a2) (List.mem_cons_self _ _))
              · rw [if_neg he]
                constructor
                · intro _ p hp
                  rcases List.mem_cons.mp hp with hp | hp
                  · rw [hp]; exact he
                  · exact ih.mp h p hp
                · intro _; rfl

/-- C4: the label resolver is total in the chunk outcomes — a failed
chunk call is skipped, contributing no entries, while every successful
chunk contributes exactly its response entities' entries, in order; hence
a key is present in the returned map exactly when some successful chunk's
response carries an entity reconstructing to it, and the keys of failed
chunks are missing. -/
theorem c4_chunk_failure_skipped (api : List String → Option (List Entity))
    (qids : List String) (lang : String) :
    (getLabelsFromApi api qids lang).1
        = (chunksOf 50 (qidCodes qids)).flatMap (fun c =>
            match api c with
            | some ents => ents.map (entityEntry lang)
            | none => [])
    ∧ (∀ k : String,
        dlookup (getLabelsFromApi api qids lang).1 k = none
          ↔ ∀ c ∈ chunksOf 50 (qidCodes qids), ∀ ents, api c = some ents →
              ∀ e ∈ ents, entityUriPrefix ++ e.1 ≠ k) := by
  refine ⟨getLabels_fst api qids lang, ?_⟩
  intro k
  rw [getLabels_fst, dlookup_eq_none_iff]
  constructor
  · intro h c hc ents hape e he
    exact h (entityEntry lang e)
      (List.mem_flatMap.mpr ⟨c, hc, by rw [hape]; exact List.mem_map_of_mem _ he⟩)
  · intro h p hp
    rcases List.mem_flatMap.mp hp with ⟨c, hc, hpc⟩
    cases hape : api c with
    | none => rw [hape] at hpc; simp at hpc
    | some ents =>
        rw [hape] at hpc
        rcases List.mem_map.mp hpc with ⟨e, he, hpe⟩
        rw [← hpe]
        exact h c hc ents hape e he

/-- C5: an entity returned without a label in the requested language is
mapped, under its reconstructed full URI, to its own bare code
(self-label), while an entity returned with such a label is mapped to
that label. -/
theorem c5_self_label (api : List String → Option (List Entity))
    (qids : List String) (lang : String) (c : List String)
    (hc : c ∈ chunksOf 50 (qidCodes qids)) (ents : List Entity)
    (hape : api c = some ents) (e : Entity) (he : e ∈ ents) :
    (e.2.lookup lang = none →
      (entityUriPrefix ++ e.1, e.1) ∈ (getLabelsFromApi api qids lang).1)
    ∧ (∀ l, e.2.lookup lang = some l →
      (entityUriPrefix ++ e.1, l) ∈ (getLabelsFromApi api qids lang).1) := by
  have hmem : entityEntry lang e ∈ (getLabelsFromApi api qids lang).1 := by
    rw [getLabels_fst]
    exact List.mem_flatMap.mpr ⟨c, hc, by rw [hape]; exact List.mem_map_of_mem _ he⟩
  constructor
  · intro h
    have he2 : entityEntry lang e = (entityUriPrefix ++ e.1, e.1) := by
      simp [entityEntry, entityLabel, h]
    rw [he2] at hmem
    exact hmem
  · intro l h
    have he2 : entityEntry lang e = (entityUriPrefix ++ e.1, l) := by
      simp [entityEntry, entityLabel, h]
    rw [he2] at hmem
    exact hmem

theorem c5_self_label_w :
    (["Q7"] ∈ chunksOf 50 (qidCodes ["http://e/Q7"]))
    ∧ (sampleApiNoLabel ["Q7"] = some [(("Q7" : String), ([] : List (String × String)))])
    ∧ ((("Q7" : String), ([] : List (String × String)))
        ∈ [(("Q7" : String), ([] : List (String × String)))])
    ∧ (((("Q7" : String), ([] : List (String × String))).2.lookup "zh-hans" = none →
        (entityUriPrefix ++ "Q7", "Q7")
          ∈ (getLabelsFromApi sampleApiNoLabel ["http://e/Q7"] "zh-hans").1)
      ∧ (∀ l, ((("Q7" : String), ([] : List (String × String))).2.lookup "zh-hans" = some l →
        (entityUriPrefix ++ "Q7", l)
          ∈ (getLabelsFromApi sampleApiNoLabel ["http://e/Q7"] "zh-hans").1))) :=
  ⟨by decide, rfl, by decide,
    c5_self_label sampleApiNoLabel ["http://e/Q7"] "zh-hans" ["Q7"] (by decide)
      [(("Q7" : String), ([] : List (String × String)))] rfl
      (("Q7" : String), ([] : List (String × String))) (by decide)⟩

/-! ### The empty-table early return (C10) -/

/-- C10: when the concatenated stage-2 table is empty,
`process_and_save_data` returns before reaching the write, so no output
file is created and a pre-existing file at the destination is left
unchanged, while the run still finishes normally. -/
theorem c10_empty_no_write (api : List String → Option (List Entity))
    (lang : String) (qidOrder : List String) (df : DataFrame)
    (file : Option DataFrame) (h : dfEmpty df = true) :
    processAndSaveData api lang qidOrder df file = file := by
  unfold processAndSaveData
  rw [if_pos h]

theorem c10_empty_no_write_w :
    (dfEmpty emptyDF = true)
    ∧ processAndSaveData sampleApi "zh-hans" [] emptyDF (some ⟨["a"], []⟩)
        = some ⟨["a"], []⟩ :=
  ⟨rfl, c10_empty_no_write sampleApi "zh-hans" [] emptyDF (some ⟨["a"], []⟩) rfl⟩

/-! ### Row and cell lemmas for the transform -/

theorem contains_iff_mem (l : List String) (c : String) :
    l.contains c = true ↔ c ∈ l := List.elem_iff

theorem contains_false_iff (l : List String) (c : String) :
    l.contains c = false ↔ c ∉ l := by
  rw [← contains_iff_mem]
  cases h : l.contains c <;> simp

theorem getCell_cons (k : String) (w : Option String) (r : Row) (c : String) :
    getCell ((k, w) :: r) c = if k = c then w else getCell r c := rfl

theorem getCell_filter_append_self (c : String) (v : Option String) :
    ∀ r : Row, getCell (r.filter (fun p => !(p.1 == c)) ++ [(c, v)]) c = v := by
  intro r
  induction r with
  | nil => simp [getCell]
  | cons p t ih =>
      obtain ⟨k, w⟩ := p
      rw [List.filter_cons]
      by_cases h : k = c
      · rw [if_neg (by simp [h])]
        exact ih
      · rw [if_pos (by simp [h]), List.cons_append, getCell_cons, if_neg h]
        exact ih

theorem getCell_filter_append_ne (c c2 : String) (v : Option String) (hne : c2 ≠ c) :
    ∀ r : Row, getCell (r.filter (fun p => !(p.1 == c)) ++ [(c, v)]) c2 = getCell r c2 := by
  intro r
  induction r with
  | nil =>
      rw [List.filter_nil, List.nil_append, getCell_cons, if_neg (fun e => hne (Eq.symm e))]
  | cons p t ih =>
      obtain ⟨k, w⟩ := p
      rw [List.filter_cons]
      by_cases h : k = c
      · rw [if_neg (by simp [h]), ih, getCell_cons,
          if_neg (by rw [h]; exact fun e => hne (Eq.symm e))]
      · rw [if_pos (by simp [h]), List.cons_append, getCell_cons, getCell_cons]
        by_cases h2 : k = c2
        · rw [if_pos h2, if_pos h2]
        · rw [if_neg h2, if_neg h2]
          exact ih

theorem getCell_rowSet_self (c : String) (f : Row → Option String) (r : Row) :
    getCell (rowSet c f r) c = f r :=
  getCell_filter_append_self c (f r) r

theorem getCell_rowSet_ne (c c2 : String) (f : Row → Option String) (r : Row)
    (hne : c2 ≠ c) : getCell (rowSet c f r) c2 = getCell r c2 :=
  getCell_filter_append_ne c c2 (f r) hne r

theorem getCell_rowDrop_ne (c c2 : String) (hne : c2 ≠ c) :
    ∀ r : Row, getCell (rowDrop c r) c2 = getCell r c2 := by
  intro r
  induction r with
  | nil => rfl
  | cons p t ih =>
      obtain ⟨k, w⟩ := p
      simp only [rowDrop] at ih ⊢
      rw [List.filter_cons]
      by_cases h : k = c
      · rw [if_neg (by simp [h]), ih, getCell_cons,
          if_neg (by rw [h]; exact fun e => hne (Eq.symm e))]
      · rw [if_pos (by simp [h]), getCell_cons, getCell_cons]
        by_cases h2 : k = c2
        · rw [if_pos h2, if_pos h2]
        · rw [if_neg h2, if_neg h2]
          exact ih

theorem getCell_rowRename_self (old new : String) :
    ∀ r : Row, rowHasKey r new = false →
      getCell (rowRename old new r) new = getCell r old := by
  intro r
  induction r with
  | nil => intro _; rfl
  | cons p t ih =>
      obtain ⟨k, w⟩ := p
      intro hkey
      have hk : (k == new) = false ∧ rowHasKey t new = false := by
        simpa [rowHasKey, List.any_cons, Bool.or_eq_false_iff] using hkey
      simp only [rowRename, List.map_cons]
      by_cases h : k = old
      · rw [if_pos (by simp [h]), getCell_cons, if_pos rfl, getCell_cons, if_pos h]
      · rw [if_neg (by simp [h]), getCell_cons, getCell_cons,
          if_neg (by simpa using hk.1), if_neg h]
        exact ih hk.2

theorem getCell_rowRename_ne (old new c2 : String) (h1 : c2 ≠ new) (h2 : c2 ≠ old) :
    ∀ r : Row, getCell (rowRename old new r) c2 = getCell r c2 := by
  intro r
  induction r with
  | nil => rfl
  | cons p t ih =>
      obtain ⟨k, w⟩ := p
      simp only [rowRename, List.map_cons] at ih ⊢
      by_cases h : k = old
      · rw [if_pos (by simp [h]), getCell_cons, getCell_cons,
          if_neg (fun e => h1 (Eq.symm e)), if_neg (by rw [h]; exact fun e => h2 (Eq.symm e))]
        exact ih
      · rw [if_neg (by simp [h]), getCell_cons, getCell_cons]
        by_cases hk2 : k = c2
        · rw [if_pos hk2, if_pos hk2]
        · rw [if_neg hk2, if_neg hk2]
          exact ih

/-! ### Table-level cell lemmas -/

theorem cellAt_setCol_self (d : DataFrame) (c : String) (f : Row → Option String) (i : Nat) :
    cellAt (setCol d c f) i c = (d.rows[i]?).map f := by
  unfold cellAt setCol
  simp only [List.getElem?_map, Option.map_map]
  cases d.rows[i]? <;> simp [Function.comp, getCell_rowSet_self]

theorem cellAt_setCol_ne (d : DataFrame) (c c2 : String) (f : Row → Option String)
    (i : Nat) (hne : c2 ≠ c) : cellAt (setCol d c f) i c2 = cellAt d i c2 := by
  unfold cellAt setCol
  simp only [List.getElem?_map, Option.map_map]
  cases d.rows[i]? <;> simp [Function.comp, getCell_rowSet_ne c c2 f _ hne]

theorem cellAt_dropCol_ne (d : DataFrame) (c c2 : String) (i : Nat) (hne : c2 ≠ c) :
    cellAt (dropCol d c) i c2 = cellAt d i c2 := by
  unfold cellAt dropCol
  simp only [List.getElem?_map, Option.map_map]
  cases d.rows[i]? <;> simp [Function.comp, getCell_rowDrop_ne c c2 hne]

theorem cellAt_renameCol_self (d : DataFrame) (old new : String) (i : Nat)
    (hkey : ∀ r ∈ d.rows, rowHasKey r new = false) :
    cellAt (renameCol d old new) i new = cellAt d i old := by
  unfold cellAt renameCol
  simp only [List.getElem?_map, Option.map_map]
  cases hrow : d.rows[i]? with
  | none => rfl
  | some r =>
      have hr : r ∈ d.rows := List.getElem?_mem hrow
      simp [Function.comp, getCell_rowRename_self old new r (hkey r hr)]

theorem cellAt_renameCol_ne (d : DataFrame) (old new c2 : String) (i : Nat)
    (h1 : c2 ≠ new) (h2 : c2 ≠ old) :
    cellAt (renameCol d old new) i c2 = cellAt d i c2 := by
  unfold cellAt renameCol
  simp only [List.getElem?_map, Option.map_map]
  cases d.rows[i]? <;> simp [Function.comp, getCell_rowRename_ne old new c2 h1 h2]

theorem optApply (labels : List (String × String)) (src : String) (o : Option Row) :
    o.map (fun r => applyLabel labels (getCell r src))
      = (o.map (fun r => getCell r src)).map (applyLabel labels) := by
  cases o <;> rfl

/-! ### Column-membership lemmas -/

theorem cols_setCol (d : DataFrame) (c : String) (f : Row → Option String) :
    (setCol d c f).cols
      = if d.cols.contains c = true then d.cols else d.cols ++ [c] := rfl

theorem cols_dropCol (d : DataFrame) (c : String) :
    (dropCol d c).cols = d.cols.filter (fun x => !(x == c)) := rfl

theorem cols_renameCol (d : DataFrame) (old new : String) :
    (renameCol d old new).cols
      = d.cols.map (fun x => if x = old then new else x) := rfl

theorem setCol_contains_mono (d : DataFrame) (c a : String) (f : Row → Option String)
    (h : d.cols.contains a = true) : (setCol d c f).cols.contains a = true := by
  rw [cols_setCol]
  by_cases hc : d.cols.contains c = true
  · rw [if_pos hc]
    exact h
  · rw [if_neg hc, contains_iff_mem]
    rw [contains_iff_mem] at h
    exact List.mem_append_left _ h

theorem setCol_not_contains (d : DataFrame) (c a : String) (f : Row → Option String)
    (h : d.cols.contains a = false) (hne : a ≠ c) :
    (setCol d c f).cols.contains a = false := by
  rw [cols_setCol]
  rw [contains_false_iff] at h
  by_cases hc : d.cols.contains c = true
  · rw [if_pos hc, contains_false_iff]
    exact h
  · rw [if_neg hc, contains_false_iff]
    intro hmem
    rcases List.mem_append.mp hmem with hm | hm
    · exact h hm
    · simp at hm
      exact hne hm

theorem renameCol_contains_mono (d : DataFrame) (old new a : String)
    (h : d.cols.contains a = true) (hne : a ≠ old) :
    (renameCol d old new).cols.contains a = true := by
  rw [cols_renameCol, contains_iff_mem]
  rw [contains_iff_mem] at h
  exact List.mem_map.mpr ⟨a, h, by rw [if_neg hne]⟩

theorem renameCol_not_contains (d : DataFrame) (old new a : String)
    (h : d.cols.contains a = false) (hnew : a ≠ new) :
    (renameCol d old new).cols.contains a = false := by
  rw [cols_renameCol, contains_false_iff]
  rw [contains_false_iff] at h
  intro hmem
  rcases List.mem_map.mp hmem with ⟨x, hx, he⟩
  by_cases hxo : x = old
  · rw [if_pos hxo] at he
    exact hnew (Eq.symm he)
  · rw [if_neg hxo] at he
    rw [← he] at h
    exact h hx

theorem dropCol_not_contains (d : DataFrame) (c a : String)
    (h : d.cols.contains a = false) : (dropCol d c).cols.contains a = false := by
  rw [cols_dropCol, contains_false_iff]
  rw [contains_false_iff] at h
  intro hmem
  exact h (List.mem_filter.mp hmem).1

theorem labelColStep_eq_pos (labels : List (String × String)) (d : DataFrame)
    (old : String) (hc : d.cols.contains old = true) :
    labelColStep labels d old
      = dropCol (setCol d (old ++ "Label")
          (fun r => applyLabel labels (getCell r old))) old := by
  unfold labelColStep
  rw [if_pos hc]

theorem labelColStep_eq_neg (labels : List (String × String)) (d : DataFrame)
    (old : String) (hc : ¬d.cols.contains old = true) :
    labelColStep labels d old = d := by
  unfold labelColStep
  rw [if_neg hc]

theorem labelColStep_contains_mono (labels : List (String × String)) (d : DataFrame)
    (old a : String) (h : d.cols.contains a = true) (hne : a ≠ old) :
    (labelColStep labels d old).cols.contains a = true := by
  by_cases hc : d.cols.contains old = true
  · rw [labelColStep_eq_pos labels d old hc, cols_dropCol, contains_iff_mem,
      List.mem_filter]
    refine ⟨?_, by simp [hne]⟩
    rw [← contains_iff_mem]
    exact setCol_contains_mono d _ a _ h
  · rw [labelColStep_eq_neg labels d old hc]
    exact h

theorem labelColStep_not_contains (labels : List (String × String)) (d : DataFrame)
    (old a : String) (h : d.cols.contains a = false) (hne : a ≠ old ++ "Label") :
    (labelColStep labels d old).cols.contains a = false := by
  by_cases hc : d.cols.contains old = true
  · rw [labelColStep_eq_pos labels d old hc]
    exact dropCol_not_contains _ _ _ (setCol_not_contains d _ a _ h hne)
  · rw [labelColStep_eq_neg labels d old hc]
    exact h

/-! ### The label application step (C2) -/

theorem cellAt_labelColStep_ne (labels : List (String × String)) (d : DataFrame)
    (old c2 : String) (i : Nat) (h1 : c2 ≠ old) (h2 : c2 ≠ old ++ "Label") :
    cellAt (labelColStep labels d old) i c2 = cellAt d i c2 := by
  by_cases hc : d.cols.contains old = true
  · rw [labelColStep_eq_pos labels d old hc,
      cellAt_dropCol_ne _ _ _ _ h1, cellAt_setCol_ne _ _ _ _ _ h2]
  · rw [labelColStep_eq_neg labels d old hc]

theorem append_Label_ne (s : String) : s ++ "Label" ≠ s := by
  intro h
  have h2 := congrArg (fun t => t.data.length) h
  simp [String.data_append] at h2

theorem cellAt_labelColStep_self (labels : List (String × String)) (d : DataFrame)
    (old : String) (i : Nat) (hc : d.cols.contains old = true) :
    cellAt (labelColStep labels d old) i (old ++ "Label")
      = (cellAt d i old).map (applyLabel labels) := by
  rw [labelColStep_eq_pos labels d old hc,
    cellAt_dropCol_ne _ _ _ _ (append_Label_ne old), cellAt_setCol_self]
  exact optApply labels old _

theorem labelStep_eq (df : DataFrame) (labels : List (String × String)) :
    labelStep df labels
      = labelColStep labels (labelColStep labels (labelColStep labels
          (setCol (renameCol df "item" "itemURI") "itemLabel"
            (fun r => applyLabel labels (getCell r "itemURI"))) "color")
          "crystalSystem") "mainLocation" := rfl

/-- C2: in the transform, the `itemLabel` column and the companion label
column of each of `color`, `crystalSystem`, `mainLocation` that is present
hold exactly the label-map image of the original cell: a value that is a
key of the map is replaced by its label, a value absent from the map
appears verbatim (never null, never dropped), and a null cell stays
null. -/
theorem c2_label_columns (df : DataFrame) (labels : List (String × String)) (i : Nat)
    (c : String) (v : String) (lab : String)
    (hc : c ∈ ["color", "crystalSystem", "mainLocation"])
    (hpres : df.cols.contains c = true)
    (hkey : ∀ r ∈ df.rows, rowHasKey r "itemURI" = false) :
    cellAt (labelStep df labels) i "itemLabel" = (cellAt df i "item").map (applyLabel labels)
    ∧ cellAt (labelStep df labels) i (c ++ "Label") = (cellAt df i c).map (applyLabel labels)
    ∧ (dlookup labels v = some lab → applyLabel labels (some v) = some lab)
    ∧ (dlookup labels v = none → applyLabel labels (some v) = some v)
    ∧ applyLabel labels none = none := by
  refine ⟨?_, ?_, ?_, ?_, rfl⟩
  · rw [labelStep_eq,
      cellAt_labelColStep_ne _ _ _ _ _ (by decide) (by decide),
      cellAt_labelColStep_ne _ _ _ _ _ (by decide) (by decide),
      cellAt_labelColStep_ne _ _ _ _ _ (by decide) (by decide),
      cellAt_setCol_self, optApply,
      show (renameCol df "item" "itemURI").rows[i]?.map (fun r => getCell r "itemURI")
          = cellAt (renameCol df "item" "itemURI") i "itemURI" from rfl,
      cellAt_renameCol_self df "item" "itemURI" i hkey]
  · have hmem : c = "color" ∨ c = "crystalSystem" ∨ c = "mainLocation" := by
      simpa using hc
    have h1 : (renameCol df "item" "itemURI").cols.contains c = true := by
      refine renameCol_contains_mono df _ _ _ hpres ?_
      rcases hmem with h | h | h <;> rw [h] <;> decide
    have h2 : (setCol (renameCol df "item" "itemURI") "itemLabel"
        (fun r => applyLabel labels (getCell r "itemURI"))).cols.contains c = true :=
      setCol_contains_mono _ _ _ _ h1
    have hbase : cellAt (setCol (renameCol df "item" "itemURI") "itemLabel"
        (fun r => applyLabel labels (getCell r "itemURI"))) i c = cellAt df i c := by
      rcases hmem with h | h | h <;>
        rw [h] <;>
        rw [cellAt_setCol_ne _ _ _ _ _ (by decide),
          cellAt_renameCol_ne _ _ _ _ _ (by decide) (by decide)]
    rcases hmem with h | h | h <;> subst h
    · rw [labelStep_eq,
        cellAt_labelColStep_ne _ _ _ _ _ (by decide) (by decide),
        cellAt_labelColStep_ne _ _ _ _ _ (by decide) (by decide),
        cellAt_labelColStep_self _ _ _ _ h2, hbase]
    · rw [labelStep_eq,
        cellAt_labelColStep_ne _ _ _ _ _ (by decide) (by decide),
        cellAt_labelColStep_self _ _ _ _ (labelColStep_contains_mono _ _ _ _ h2 (by decide)),
        cellAt_labelColStep_ne _ _ _ _ _ (by decide) (by decide), hbase]
    · rw [labelStep_eq,
        cellAt_labelColStep_self _ _ _ _
          (labelColStep_contains_mono _ _ _ _
            (labelColStep_contains_mono _ _ _ _ h2 (by decide)) (by decide)),
        cellAt_labelColStep_ne _ _ _ _ _ (by decide) (by decide),
        cellAt_labelColStep_ne _ _ _ _ _ (by decide) (by decide), hbase]
  · intro h
    simp [applyLabel, h]
  · intro h
    simp [applyLabel, h]

theorem c2_label_columns_w :
    ("color" ∈ ["color", "crystalSystem", "mainLocation"])
    ∧ ((DataFrame.mk ["item", "color"]
        [[("item", some "u1"), ("color", some "u2")]]).cols.contains "color" = true)
    ∧ (cellAt (labelStep (DataFrame.mk ["item", "color"]
          [[("item", some "u1"), ("color", some "u2")]]) [("u2", "red")]) 0 "itemLabel"
        = (cellAt (DataFrame.mk ["item", "color"]
            [[("item", some "u1"), ("color", some "u2")]]) 0 "item").map
              (applyLabel [("u2", "red")])
      ∧ cellAt (labelStep (DataFrame.mk ["item", "color"]
          [[("item", some "u1"), ("color", some "u2")]]) [("u2", "red")]) 0 ("color" ++ "Label")
        = (cellAt (DataFrame.mk ["item", "color"]
            [[("item", some "u1"), ("color", some "u2")]]) 0 "color").map
              (applyLabel [("u2", "red")])
      ∧ (dlookup [("u2", "red")] "u2" = some "red" →
          applyLabel [("u2", "red")] (some "u2") = some "red")
      ∧ (dlookup [("u2", "red")] "u2" = none →
          applyLabel [("u2", "red")] (some "u2") = some "u2")
      ∧ applyLabel [("u2", "red")] none = none) :=
  ⟨by decide, by decide,
    c2_label_columns (DataFrame.mk ["item", "color"]
        [[("item", some "u1"), ("color", some "u2")]])
      [("u2", "red")] 0 "color" "u2" "red" (by decide) (by decide) (by decide)⟩

/-! ### Density extraction (C6) -/

theorem opt_map_getCell (g : Option String → Option String) (src : String) (o : Option Row) :
    o.map (fun r => g (getCell r src)) = (o.map (fun r => getCell r src)).map g := by
  cases o <;> rfl

theorem densityStep_eq_pos (df : DataFrame)
    (hc : df.cols.contains "densityNode" = true) :
    densityStep df
      = dropCol (setCol df "densityValue"
          (fun r => densityApply (getCell r "densityNode"))) "densityNode" := by
  unfold densityStep
  rw [if_pos hc]

theorem densityStep_eq_neg (df : DataFrame)
    (hc : ¬df.cols.contains "densityNode" = true) : densityStep df = df := by
  unfold densityStep
  rw [if_neg hc]

theorem dropCol_contains_self_false (d : DataFrame) (c : String) :
    (dropCol d c).cols.contains c = false := by
  rw [cols_dropCol, contains_false_iff]
  intro hmem
  have h := (List.mem_filter.mp hmem).2
  simp at h

theorem densityStep_not_contains (df : DataFrame) (a : String)
    (h : df.cols.contains a = false) (hne : a ≠ "densityValue") :
    (densityStep df).cols.contains a = false := by
  by_cases hc : df.cols.contains "densityNode" = true
  · rw [densityStep_eq_pos df hc]
    exact dropCol_not_contains _ _ _ (setCol_not_contains df _ a _ h hne)
  · rw [densityStep_eq_neg df hc]
    exact h

theorem firstRun_none_iff :
    ∀ l : List Char, firstRun l = none ↔ l.all (fun c => !(isDens c)) = true := by
  intro l
  induction l with
  | nil => simp [firstRun]
  | cons c cs ih =>
      by_cases h : isDens c = true
      · simp [firstRun, h]
      · simp only [firstRun, h, Bool.false_eq_true, if_false, List.all_cons]
        rw [ih]
        simp [h]

theorem dropWhile_head_not (p : α → Bool) :
    ∀ l : List α, l.dropWhile p = [] ∨ ∃ c t, l.dropWhile p = c :: t ∧ p c = false := by
  intro l
  induction l with
  | nil => left; rfl
  | cons a t ih =>
      by_cases h : p a = true
      · rw [List.dropWhile_cons, if_pos h]
        exact ih
      · rw [List.dropWhile_cons, if_neg h]
        right
        exact ⟨a, t, rfl, by simpa using h⟩

theorem takeWhile_all (p : α → Bool) (l : List α) : (l.takeWhile p).all p = true := by
  rw [List.all_eq_true]
  exact fun x hx => List.mem_takeWhile_imp hx

theorem firstRun_some_spec :
    ∀ (l r : List Char), firstRun l = some r →
      ∃ p t, l = p ++ r ++ t
        ∧ p.all (fun c => !(isDens c)) = true
        ∧ r ≠ []
        ∧ r.all isDens = true
        ∧ (t = [] ∨ ∃ c2 t2, t = c2 :: t2 ∧ isDens c2 = false) := by
  intro l
  induction l with
  | nil => intro r h; simp [firstRun] at h
  | cons c cs ih =>
      intro r h
      by_cases hc : isDens c = true
      · rw [show firstRun (c :: cs) = some (c :: cs.takeWhile isDens) from by
          simp [firstRun, hc]] at h
        injection h with h
        refine ⟨[], cs.dropWhile isDens, ?_, rfl, by rw [← h]; simp, ?_, ?_⟩
        · rw [← h, List.nil_append, List.cons_append,
            List.takeWhile_append_dropWhile]
        · rw [← h, List.all_cons, hc, takeWhile_all]
          rfl
        · exact dropWhile_head_not isDens cs
      · have h2 : firstRun cs = some r := by
          rwa [show firstRun (c :: cs) = firstRun cs from by simp [firstRun, hc]] at h
        rcases ih r h2 with ⟨p, t, he, hp, hr, hall, ht⟩
        refine ⟨c :: p, t, ?_, ?_, hr, hall, ht⟩
        · rw [he]
          simp [List.append_assoc]
        · rw [List.all_cons, hp]
          simp [hc]

/-- C6 counterexample: the claim says a value with no numeric substring
extracts to null, but the pattern class `[0-9\.]+` also matches a bare
period — the digit-free value `"g/cm."` extracts to `"."`, not null. -/
theorem c6_counterexample :
    ("g/cm.".data.all (fun c => !(c.isDigit)) = true)
    ∧ extractDensity "g/cm." = some "."
    ∧ densityApply (some "g/cm.") = some "." :=
  ⟨by decide, by decide, by decide⟩

/-- C6 amended: density extraction takes each value of the compound
column, extracts the leftmost maximal run of characters of the pattern
class (ASCII digits and periods) — so `"2.65 g/cm³"` yields `"2.65"` —
yields null exactly when the value contains no character of the class
(a digit-free value containing a period yields a period run, not null),
and drops the original compound column. -/
theorem c6_density_extraction (df : DataFrame) (i : Nat) (s r : String)
    (hc : df.cols.contains "densityNode" = true) :
    (densityStep df).cols.contains "densityNode" = false
    ∧ cellAt (densityStep df) i "densityValue"
        = (cellAt df i "densityNode").map densityApply
    ∧ extractDensity "2.65 g/cm³" = some "2.65"
    ∧ (extractDensity s = none ↔ s.data.all (fun c => !(isDens c)) = true)
    ∧ (extractDensity s = some r →
        ∃ p t, s.data = p ++ r.data ++ t
          ∧ p.all (fun c => !(isDens c)) = true
          ∧ r.data ≠ []
          ∧ r.data.all isDens = true
          ∧ (t = [] ∨ ∃ c2 t2, t = c2 :: t2 ∧ isDens c2 = false)) := by
  refine ⟨?_, ?_, by decide, ?_, ?_⟩
  · rw [densityStep_eq_pos df hc]
    exact dropCol_contains_self_false _ _
  · rw [densityStep_eq_pos df hc,
      cellAt_dropCol_ne _ _ _ _ (by decide), cellAt_setCol_self]
    exact opt_map_getCell densityApply "densityNode" _
  · unfold extractDensity
    cases hfr : firstRun s.data with
    | none =>
        simp only [Option.map_none']
        constructor
        · intro _; exact (firstRun_none_iff s.data).mp hfr
        · intro _; trivial
    | some rl =>
        simp only [Option.map_some']
        constructor
        · intro h; exact absurd h (by simp)
        · intro hall
          rw [(firstRun_none_iff s.data).mpr hall] at hfr
          exact absurd hfr (by simp)
  · intro h
    unfold extractDensity at h
    cases hfr : firstRun s.data with
    | none => rw [hfr] at h; simp at h
    | some rl =>
        rw [hfr] at h
        simp only [Option.map_some', Option.some.injEq] at h
        have hdata : r.data = rl := by rw [← h]
        rw [hdata]
        exact firstRun_some_spec s.data rl hfr

theorem c6_density_extraction_w :
    ((DataFrame.mk ["densityNode"]
        [[("densityNode", some "2.5 g")]]).cols.contains "densityNode" = true)
    ∧ ((densityStep (DataFrame.mk ["densityNode"]
          [[("densityNode", some "2.5 g")]])).cols.contains "densityNode" = false
    ∧ cellAt (densityStep (DataFrame.mk ["densityNode"]
          [[("densityNode", some "2.5 g")]])) 0 "densityValue"
        = (cellAt (DataFrame.mk ["densityNode"]
            [[("densityNode", some "2.5 g")]]) 0 "densityNode").map densityApply
    ∧ extractDensity "2.65 g/cm³" = some "2.65"
    ∧ (extractDensity "2.65 g/cm³" = none
        ↔ "2.65 g/cm³".data.all (fun c => !(isDens c)) = true)
    ∧ (extractDensity "2.65 g/cm³" = some "2.65" →
        ∃ p t, "2.65 g/cm³".data = p ++ "2.65".data ++ t
          ∧ p.all (fun c => !(isDens c)) = true
          ∧ "2.65".data ≠ []
          ∧ "2.65".data.all isDens = true
          ∧ (t = [] ∨ ∃ c2 t2, t = c2 :: t2 ∧ isDens c2 = false))) :=
  ⟨by decide,
    c6_density_extraction (DataFrame.mk ["densityNode"]
      [[("densityNode", some "2.5 g")]]) 0 "2.65 g/cm³" "2.65" (by decide)⟩

/-! ### Final column selection (C7) -/

theorem cols_selectStep (d : DataFrame) :
    (selectStep d).cols = finalCols.filter (fun c => d.cols.contains c) := rfl

/-- C7: the output column set is the fixed final list restricted to the
columns present in the working table, in the fixed order; a final-list
column absent from the working table is omitted, never synthesized — in
particular a source table carrying neither `mainLocation` nor a literal
`mainLocationLabel` column yields no `mainLocationLabel` in the output. -/
theorem c7_final_columns (df : DataFrame) (labels : List (String × String))
    (h1 : df.cols.contains "mainLocation" = false)
    (h2 : df.cols.contains "mainLocationLabel" = false) :
    (processTable df labels).cols
        = finalCols.filter (fun c => (densityStep (labelStep df labels)).cols.contains c)
    ∧ (∀ c ∈ (processTable df labels).cols, c ∈ (densityStep (labelStep df labels)).cols)
    ∧ (processTable df labels).cols.contains "mainLocationLabel" = false := by
  have hcols : (processTable df labels).cols
      = finalCols.filter (fun c => (densityStep (labelStep df labels)).cols.contains c) := rfl
  refine ⟨hcols, ?_, ?_⟩
  · intro c hcm
    rw [hcols] at hcm
    exact (contains_iff_mem _ _).mp (List.mem_filter.mp hcm).2
  · have hml : (labelColStep labels (labelColStep labels
        (setCol (renameCol df "item" "itemURI") "itemLabel"
          (fun r => applyLabel labels (getCell r "itemURI"))) "color")
        "crystalSystem").cols.contains "mainLocation" = false := by
      refine labelColStep_not_contains _ _ _ _ ?_ (by decide)
      refine labelColStep_not_contains _ _ _ _ ?_ (by decide)
      refine setCol_not_contains _ _ _ _ ?_ (by decide)
      exact renameCol_not_contains df _ _ _ h1 (by decide)
    have hlab2 : (labelColStep labels (labelColStep labels
        (setCol (renameCol df "item" "itemURI") "itemLabel"
          (fun r => applyLabel labels (getCell r "itemURI"))) "color")
        "crystalSystem").cols.contains "mainLocationLabel" = false := by
      refine labelColStep_not_contains _ _ _ _ ?_ (by decide)
      refine labelColStep_not_contains _ _ _ _ ?_ (by decide)
      refine setCol_not_contains _ _ _ _ ?_ (by decide)
      exact renameCol_not_contains df _ _ _ h2 (by decide)
    have hlab : (labelStep df labels).cols.contains "mainLocationLabel" = false := by
      rw [labelStep_eq,
        labelColStep_eq_neg labels _ "mainLocation"
          (by intro hcontra; rw [hcontra] at hml; exact absurd hml (by simp))]
      exact hlab2
    have hd : (densityStep (labelStep df labels)).cols.contains "mainLocationLabel" = false :=
      densityStep_not_contains _ _ hlab (by decide)
    rw [hcols, contains_false_iff]
    intro hmem
    have hpred := (List.mem_filter.mp hmem).2
    rw [hd] at hpred
    exact absurd hpred (by simp)

theorem c7_final_columns_w :
    ((DataFrame.mk ["item"] [[("item", some "u")]]).cols.contains "mainLocation" = false)
    ∧ ((DataFrame.mk ["item"] [[("item", some "u")]]).cols.contains "mainLocationLabel" = false)
    ∧ ((processTable (DataFrame.mk ["item"] [[("item", some "u")]]) []).cols
        = finalCols.filter (fun c =>
            (densityStep (labelStep (DataFrame.mk ["item"] [[("item", some "u")]]) [])).cols.contains c)
    ∧ (∀ c ∈ (processTable (DataFrame.mk ["item"] [[("item", some "u")]]) []).cols,
        c ∈ (densityStep (labelStep (DataFrame.mk ["item"] [[("item", some "u")]]) [])).cols)
    ∧ (processTable (DataFrame.mk ["item"] [[("item", some "u")]]) []).cols.contains
        "mainLocationLabel" = false) :=
  ⟨by decide, by decide,
    c7_final_columns (DataFrame.mk ["item"] [[("item", some "u")]]) [] (by decide) (by decide)⟩

/-! ### Determinism of the pipeline in the set-iteration order (C9) -/

theorem getLabels_pointwise (entityOf : String → List (String × String))
    (qids : List String) (lang : String) :
    (getLabelsFromApi (pointwiseApi entityOf) qids lang).1
      = (qidCodes qids).map (fun q => entityEntry lang (q, entityOf q)) := by
  rw [getLabels_fst]
  have hstep : ∀ c : List String,
      (match pointwiseApi entityOf c with
       | some ents => ents.map (entityEntry lang)
       | none => ([] : List (String × String)))
        = c.map (fun q => entityEntry lang (q, entityOf q)) := by
    intro c
    simp [pointwiseApi, List.map_map]
  simp only [hstep]
  rw [List.flatMap_def, ← List.map_flatten, chunksOf_flatten (by decide) (qidCodes qids)]

theorem entityUriPrefix_inj (a b : String)
    (h : entityUriPrefix ++ a = entityUriPrefix ++ b) : a = b := by
  have h2 := congrArg String.data h
  rw [String.data_append, String.data_append] at h2
  exact String.ext (List.append_cancel_left h2)

theorem dlookup_map_entry_some_iff (valOf : String → String) :
    ∀ (l : List String) (k v : String),
      dlookup (l.map (fun q => (entityUriPrefix ++ q, valOf q))) k = some v
        ↔ ∃ q ∈ l, entityUriPrefix ++ q = k ∧ valOf q = v := by
  intro l
  induction l with
  | nil => intro k v; simp [dlookup]
  | cons a t ih =>
      intro k v
      simp only [List.map_cons, dlookup]
      cases h : dlookup (t.map (fun q => (entityUriPrefix ++ q, valOf q))) k with
      | some w =>
          simp only []
          rcases (ih k w).mp h with ⟨q, hq, hk, hv⟩
          constructor
          · intro he
            injection he with he
            exact ⟨q, List.mem_cons_of_mem _ hq, hk, by rw [hv, he]⟩
          · rintro ⟨q2, hq2, hk2, hv2⟩
            have hqq : q2 = q := entityUriPrefix_inj _ _ (hk2.trans hk.symm)
            rw [hqq] at hv2
            exact congrArg some (hv.symm.trans hv2)
      | none =>
          simp only []
          have hnone : ∀ q ∈ t, entityUriPrefix ++ q ≠ k := by
            intro q hq he
            exact (dlookup_eq_none_iff _ k).mp h (entityUriPrefix ++ q, valOf q)
              (List.mem_map_of_mem _ hq) he
          by_cases hk : entityUriPrefix ++ a = k
          · rw [if_pos hk]
            constructor
            · intro he
              injection he with he
              exact ⟨a, List.mem_cons_self _ _, hk, he⟩
            · rintro ⟨q2, hq2, hk2, hv2⟩
              rcases List.mem_cons.mp hq2 with hq2 | hq2
              · rw [← hq2, hv2]
              · exact absurd hk2 (hnone q2 hq2)
          · rw [if_neg hk]
            constructor
            · intro he
              exact absurd he (by simp)
            · rintro ⟨q2, hq2, hk2, hv2⟩
              rcases List.mem_cons.mp hq2 with hq2 | hq2
              · rw [hq2] at hk2
                exact absurd hk2 hk
              · exact absurd hk2 (hnone q2 hq2)

theorem dlookup_map_entry_congr (valOf : String → String) (l1 l2 : List String)
    (hmem : ∀ x, x ∈ l1 ↔ x ∈ l2) (k : String) :
    dlookup (l1.map (fun q => (entityUriPrefix ++ q, valOf q))) k
      = dlookup (l2.map (fun q => (entityUriPrefix ++ q, valOf q))) k := by
  cases h1 : dlookup (l1.map (fun q => (entityUriPrefix ++ q, valOf q))) k with
  | some v =>
      rcases (dlookup_map_entry_some_iff valOf l1 k v).mp h1 with ⟨q, hq, hk, hv⟩
      exact ((dlookup_map_entry_some_iff valOf l2 k v).mpr
        ⟨q, (hmem q).mp hq, hk, hv⟩).symm
  | none =>
      cases h2 : dlookup (l2.map (fun q => (entityUriPrefix ++ q, valOf q))) k with
      | none => rfl
      | some v =>
          rcases (dlookup_map_entry_some_iff valOf l2 k v).mp h2 with ⟨q, hq, hk, hv⟩
          have h3 := (dlookup_map_entry_some_iff valOf l1 k v).mpr
            ⟨q, (hmem q).mpr hq, hk, hv⟩
          rw [h1] at h3
          exact absurd h3 (by simp)

theorem applyLabel_congr (l1 l2 : List (String × String))
    (h : ∀ k, dlookup l1 k = dlookup l2 k) : applyLabel l1 = applyLabel l2 := by
  funext v
  cases v with
  | none => rfl
  | some s => simp [applyLabel, h s]

theorem labelStep_congr (df : DataFrame) (l1 l2 : List (String × String))
    (h : applyLabel l1 = applyLabel l2) : labelStep df l1 = labelStep df l2 := by
  unfold labelStep labelColStep
  simp only [h]

theorem processTable_congr (df : DataFrame) (l1 l2 : List (String × String))
    (h : ∀ k, dlookup l1 k = dlookup l2 k) : processTable df l1 = processTable df l2 := by
  unfold processTable
  rw [labelStep_congr df l1 l2 (applyLabel_congr l1 l2 h)]

theorem qidCodes_mem_iff (o1 o2 : List String) (hmem : ∀ x, x ∈ o1 ↔ x ∈ o2) :
    ∀ y, y ∈ qidCodes o1 ↔ y ∈ qidCodes o2 := by
  intro y
  unfold qidCodes
  simp only [List.mem_map, List.mem_filter]
  constructor
  · rintro ⟨q, ⟨hq, hf⟩, he⟩
    exact ⟨q, ⟨(hmem q).mp hq, hf⟩, he⟩
  · rintro ⟨q, ⟨hq, hf⟩, he⟩
    exact ⟨q, ⟨(hmem q).mpr hq, hf⟩, he⟩

/-- C9: with both remote endpoints modelled as fixed deterministic
functions (an unchanged remote dataset), the transform-and-write step is
a pure function of the received responses — in particular, the label map
built from the collected identifier set does not depend on the set's
iteration order or the resulting chunking, so two runs over any two
orderings of the same identifier set write identical output files. -/
theorem c9_order_independent (df : DataFrame) (entityOf : String → List (String × String))
    (lang : String) (file : Option DataFrame) (o1 o2 : List String)
    (hmem : ∀ x, x ∈ o1 ↔ x ∈ o2) :
    processAndSaveData (pointwiseApi entityOf) lang o1 df file
      = processAndSaveData (pointwiseApi entityOf) lang o2 df file := by
  unfold processAndSaveData
  by_cases hemp : dfEmpty df = true
  · rw [if_pos hemp, if_pos hemp]
  · rw [if_neg hemp, if_neg hemp]
    congr 1
    apply processTable_congr
    intro k
    rw [getLabels_pointwise, getLabels_pointwise]
    exact dlookup_map_entry_congr (fun q => entityLabel lang (q, entityOf q))
      (qidCodes o1) (qidCodes o2) (qidCodes_mem_iff o1 o2 hmem) k

theorem c9_order_independent_w :
    processAndSaveData (pointwiseApi (fun _ => [("zh-hans", "L")])) "zh-hans"
        ["http://e/Q1", "http://e/Q2"]
        (DataFrame.mk ["item"] [[("item", some "http://e/Q1")]]) none
      = processAndSaveData (pointwiseApi (fun _ => [("zh-hans", "L")])) "zh-hans"
        ["http://e/Q2", "http://e/Q1"]
        (DataFrame.mk ["item"] [[("item", some "http://e/Q1")]]) none :=
  c9_order_independent (DataFrame.mk ["item"] [[("item", some "http://e/Q1")]])
    (fun _ => [("zh-hans", "L")]) "zh-hans" none
    ["http://e/Q1", "http://e/Q2"] ["http://e/Q2", "http://e/Q1"]
    (by intro x; simp [List.mem_cons]; tauto)

end RunQuery
